import Mathlib

/-!
# Verification of the Multi-Notes application note store

A shallow embedding of the state-management core of `src/main.rs`
(the `NotesApp` iced application): the note store, its reducer
`NotesApp::update`, and JSON import/export of the store.

Modelling conventions:

* `HashMap<String, Note>` is embedded as an association list
  (`NotesMap`) with `lookupNote` / `insertNote` / `modifyNote`
  mirroring `HashMap::get`, `HashMap::insert` and `HashMap::get_mut`
  followed by a field mutation.  `insertNote` replaces an existing
  binding in place, so the extensional behaviour matches `HashMap`.
* `uuid::Uuid::new_v4().to_string()` is a source of randomness; the
  generated identifier is passed as a parameter of the `CreateNote`
  message, so that freshness (which the uuid scheme guarantees
  statistically) appears as an explicit hypothesis where a claim
  needs it.
* File I/O outcomes (`fs::read_to_string`, `fs::write`) are passed as
  parameters of the `ImportNotes` / `ExportNotes` messages: a read
  either fails with an error message or yields the file's JSON
  document; a write either fails with an error message or succeeds.
  Modelled from the spec: the textual encoding and decoding performed
  by `serde_json::to_string` / `serde_json::from_str` (library code,
  not part of this repository) is a faithful bijection between JSON
  text and JSON documents, so files are modelled as holding JSON
  documents (`Json` trees) directly.
* The `serde` derive semantics for `Note` and for the map are embedded
  directly: struct serialization writes the fields in declaration
  order, the unit enum `NoteColor` serializes as its variant-name
  string tag, deserialization of a struct accepts fields in any
  order, errors on duplicate or missing fields and on wrongly typed
  values, and ignores unknown fields (the serde default).
-/

/-- The closed set of note colors (`enum NoteColor` in `src/main.rs`). -/
inductive NoteColor where
  | Red
  | Green
  | Blue
  | Yellow
  | Orange
  deriving DecidableEq, Repr

/-- The string tag under which serde serializes a `NoteColor` variant
(the variant's name). -/
def colorTag : NoteColor → String
  | NoteColor.Red => "Red"
  | NoteColor.Green => "Green"
  | NoteColor.Blue => "Blue"
  | NoteColor.Yellow => "Yellow"
  | NoteColor.Orange => "Orange"

/-- Deserialization of a `NoteColor` string tag (serde unit-enum
deserialization): the inverse of `colorTag`, failing on any other
string. -/
def colorOfTag : String → Option NoteColor
  | "Red" => some NoteColor.Red
  | "Green" => some NoteColor.Green
  | "Blue" => some NoteColor.Blue
  | "Yellow" => some NoteColor.Yellow
  | "Orange" => some NoteColor.Orange
  | _ => none

/-- `struct Note` from `src/main.rs`. -/
structure Note where
  id : String
  title : String
  content : String
  color : NoteColor
  deriving DecidableEq, Repr

/-- JSON documents, as produced and consumed by `serde_json`. -/
inductive Json where
  | null
  | bool (b : Bool)
  | num (n : Int)
  | str (s : String)
  | arr (elems : List Json)
  | obj (entries : List (String × Json))

/-- The in-memory note store: the embedding of
`HashMap<String, Note>`. -/
abbrev NotesMap := List (String × Note)

/-- `HashMap::get`: the note bound to a key, if any. -/
def lookupNote : NotesMap → String → Option Note
  | [], _ => none
  | (k, n) :: rest, key => if k = key then some n else lookupNote rest key

/-- `HashMap::insert`: bind a key to a note, replacing any existing
binding for that key. -/
def insertNote : NotesMap → String → Note → NotesMap
  | [], key, note => [(key, note)]
  | (k, n) :: rest, key, note =>
      if k = key then (key, note) :: rest
      else (k, n) :: insertNote rest key note

/-- `HashMap::get_mut` followed by a field mutation: apply `f` to the
note bound to `key`, if any; otherwise leave the map unchanged. -/
def modifyNote : NotesMap → String → (Note → Note) → NotesMap
  | [], _, _ => []
  | (k, n) :: rest, key, f =>
      if k = key then (k, f n) :: rest
      else (k, n) :: modifyNote rest key f

/-- The key set of the store, as a list. -/
def notesKeys (m : NotesMap) : List String := m.map Prod.fst

/-- serde serialization of a `Note`: an object with the four fields in
declaration order, the color as its string tag. -/
def noteToJson (n : Note) : Json :=
  Json.obj
    [("id", Json.str n.id), ("title", Json.str n.title),
     ("content", Json.str n.content), ("color", Json.str (colorTag n.color))]

/-- serde serialization of the whole store (`serde_json::to_string(&self.notes)`
up to textual encoding): a top-level object mapping each key to the
serialized note. -/
def notesToJson (m : NotesMap) : Json :=
  Json.obj (m.map fun p => (p.1, noteToJson p.2))

/-- Deserializing a JSON value as a string (serde string field). -/
def asString : Json → Except String String
  | Json.str s => Except.ok s
  | _ => Except.error "invalid type: expected a string"

/-- Deserializing a JSON value as a `NoteColor` (serde unit enum). -/
def asColor : Json → Except String NoteColor
  | Json.str s =>
      match colorOfTag s with
      | some c => Except.ok c
      | none => Except.error "unknown variant, expected one of Red, Green, Blue, Yellow, Orange"
  | _ => Except.error "invalid type: expected a string"

/-- Accumulator for deserializing the fields of a `Note`. -/
structure NoteAcc where
  idF : Option String := none
  titleF : Option String := none
  contentF : Option String := none
  colorF : Option NoteColor := none

/-- One field of a `Note` object, serde-style: duplicate fields and
wrongly typed values are errors, unknown fields are ignored. -/
def noteFieldStep (acc : NoteAcc) (field : String × Json) : Except String NoteAcc :=
  match field.1 with
  | "id" =>
      match acc.idF with
      | some _ => Except.error "duplicate field id"
      | none => (asString field.2).map fun s => { acc with idF := some s }
  | "title" =>
      match acc.titleF with
      | some _ => Except.error "duplicate field title"
      | none => (asString field.2).map fun s => { acc with titleF := some s }
  | "content" =>
      match acc.contentF with
      | some _ => Except.error "duplicate field content"
      | none => (asString field.2).map fun s => { acc with contentF := some s }
  | "color" =>
      match acc.colorF with
      | some _ => Except.error "duplicate field color"
      | none => (asColor field.2).map fun c => { acc with colorF := some c }
  | _ => Except.ok acc

/-- The serde field loop: process the fields of a `Note` object in
order, stopping at the first failure. -/
def noteFields : NoteAcc → List (String × Json) → Except String NoteAcc
  | acc, [] => Except.ok acc
  | acc, p :: rest =>
      match noteFieldStep acc p with
      | Except.ok acc' => noteFields acc' rest
      | Except.error e => Except.error e

/-- serde deserialization of a `Note` from a JSON value: must be an
object providing each of the four fields exactly once. -/
def jsonToNote (j : Json) : Except String Note :=
  match j with
  | Json.obj fields =>
      match noteFields {} fields with
      | Except.ok acc =>
          match acc.idF, acc.titleF, acc.contentF, acc.colorF with
          | some i, some t, some c, some col =>
              Except.ok { id := i, title := t, content := c, color := col }
          | _, _, _, _ => Except.error "missing field in Note"
      | Except.error e => Except.error e
  | _ => Except.error "invalid type: expected a Note object"

/-- The serde map-entry loop: deserialize each entry's value as a
`Note` and insert it, stopping at the first failure (as `HashMap`'s
`Deserialize` does). -/
def insertParsed : NotesMap → List (String × Json) → Except String NotesMap
  | m, [] => Except.ok m
  | m, p :: rest =>
      match jsonToNote p.2 with
      | Except.ok n => insertParsed (insertNote m p.1 n) rest
      | Except.error e => Except.error e

/-- serde deserialization of the whole store
(`serde_json::from_str::<HashMap<String, Note>>` up to textual
decoding): the document must be a top-level object, and every value
must deserialize as a `Note`; any failure fails the whole
deserialization. -/
def jsonToNotes (j : Json) : Except String NotesMap :=
  match j with
  | Json.obj entries => insertParsed [] entries
  | _ => Except.error "invalid type: expected a map"

/-- The application state `struct NotesApp` (the UI-independent
part). -/
structure NotesApp where
  notes : NotesMap
  current_note : Option String
  error : Option String
  deriving DecidableEq, Repr

/-- The messages of the application (`enum Message`), with the
nondeterministic inputs of each arm (the freshly generated uuid, the
file-read outcome, the file-write outcome) as explicit parameters. -/
inductive Message where
  | CreateNote (freshId : String)
  | SelectNote (id : String)
  | UpdateNoteTitle (title : String)
  | UpdateNoteContent (content : String)
  | ChangeNoteColor (color : NoteColor)
  | ImportNotes (file : Except String Json)
  | ExportNotes (writeResult : Except String Unit)
  | ClearError

/-- `NotesApp::import_notes`: read the file, deserialize it as the
full mapping, and only on success replace `self.notes` wholesale.
The `?` operator propagates read and parse failures before any state
is touched. -/
def NotesApp.import_notes (s : NotesApp) (file : Except String Json) :
    Except String NotesApp := do
  let json ← file
  let m ← jsonToNotes json
  Except.ok { s with notes := m }

/-- `NotesApp::export_notes`: serialize the current mapping (total
here, since the keys are strings) and write it; the write outcome is
the `writeResult` parameter.  Returns the document written. -/
def NotesApp.export_notes (s : NotesApp) (writeResult : Except String Unit) :
    Except String Json := do
  let json := notesToJson s.notes
  let _ ← writeResult
  Except.ok json

/-- The reducer `NotesApp::update` (the returned `Command` is always
`Command::none()` and is omitted). -/
def NotesApp.update (s : NotesApp) (message : Message) : NotesApp :=
  match message with
  | Message.CreateNote freshId =>
      let note : Note :=
        { id := freshId, title := "New Note", content := "", color := NoteColor.Yellow }
      { s with notes := insertNote s.notes freshId note, current_note := some freshId }
  | Message.SelectNote id =>
      { s with current_note := some id }
  | Message.UpdateNoteTitle title =>
      match s.current_note with
      | some id => { s with notes := modifyNote s.notes id fun n => { n with title := title } }
      | none => s
  | Message.UpdateNoteContent content =>
      match s.current_note with
      | some id => { s with notes := modifyNote s.notes id fun n => { n with content := content } }
      | none => s
  | Message.ChangeNoteColor color =>
      match s.current_note with
      | some id => { s with notes := modifyNote s.notes id fun n => { n with color := color } }
      | none => s
  | Message.ImportNotes file =>
      match s.import_notes file with
      | Except.ok s' => { s' with error := none }
      | Except.error e => { s with error := some e }
  | Message.ExportNotes wr =>
      match s.export_notes wr with
      | Except.ok _ => { s with error := none }
      | Except.error e => { s with error := some e }
  | Message.ClearError =>
      { s with error := none }

/-- The initial state (`NotesApp::new`). -/
def NotesApp.new : NotesApp :=
  { notes := [], current_note := none, error := none }

/-- Running a sequence of messages through the reducer. -/
def NotesApp.run (s : NotesApp) (msgs : List Message) : NotesApp :=
  msgs.foldl NotesApp.update s

/-- The note inserted by `CreateNote` for a given fresh identifier. -/
def newNote (freshId : String) : Note :=
  { id := freshId, title := "New Note", content := "", color := NoteColor.Yellow }

/-! ## Association-list lemmas -/

theorem lookupNote_insertNote_self (m : NotesMap) (k : String) (n : Note) :
    lookupNote (insertNote m k n) k = some n := by
  induction m with
  | nil => simp [insertNote, lookupNote]
  | cons p rest ih =>
      obtain ⟨k0, n0⟩ := p
      by_cases h : k0 = k
      · simp [insertNote, lookupNote, h]
      · simp [insertNote, lookupNote, h, ih]

theorem lookupNote_insertNote_ne (m : NotesMap) (k k' : String) (n : Note)
    (h : k' ≠ k) :
    lookupNote (insertNote m k n) k' = lookupNote m k' := by
  induction m with
  | nil => simp [insertNote, lookupNote, h, Ne.symm h]
  | cons p rest ih =>
      obtain ⟨k0, n0⟩ := p
      by_cases h0 : k0 = k
      · subst h0
        simp [insertNote, lookupNote, Ne.symm h]
      · by_cases h1 : k0 = k'
        · simp [insertNote, lookupNote, h0, h1, h]
        · simp [insertNote, lookupNote, h0, h1, h, ih]

theorem lookupNote_modifyNote (m : NotesMap) (key k' : String) (f : Note → Note) :
    lookupNote (modifyNote m key f) k' =
      if k' = key then (lookupNote m k').map f else lookupNote m k' := by
  induction m with
  | nil => simp [modifyNote, lookupNote]
  | cons p rest ih =>
      obtain ⟨k0, n0⟩ := p
      by_cases h0 : k0 = key
      · subst h0
        by_cases h1 : k0 = k'
        · subst h1
          simp [modifyNote, lookupNote]
        · simp [modifyNote, lookupNote, h1, Ne.symm h1]
      · by_cases h1 : k0 = k'
        · subst h1
          simp [modifyNote, lookupNote, h0, ih, Ne.symm h0]
        · simp [modifyNote, lookupNote, h0, h1, ih]

theorem modifyNote_of_none (m : NotesMap) (key : String) (f : Note → Note)
    (h : lookupNote m key = none) :
    modifyNote m key f = m := by
  induction m with
  | nil => simp [modifyNote]
  | cons p rest ih =>
      obtain ⟨k0, n0⟩ := p
      by_cases h0 : k0 = key
      · simp [lookupNote, h0] at h
      · simp [lookupNote, h0] at h
        simp [modifyNote, h0, ih h]

theorem notesKeys_modifyNote (m : NotesMap) (key : String) (f : Note → Note) :
    notesKeys (modifyNote m key f) = notesKeys m := by
  induction m with
  | nil => rfl
  | cons p rest ih =>
      obtain ⟨k0, n0⟩ := p
      by_cases h0 : k0 = key
      · simp [modifyNote, notesKeys, h0]
      · simpa [modifyNote, notesKeys, h0] using ih

theorem insertNote_of_none (m : NotesMap) (k : String) (n : Note)
    (h : lookupNote m k = none) :
    insertNote m k n = m ++ [(k, n)] := by
  induction m with
  | nil => simp [insertNote]
  | cons p rest ih =>
      obtain ⟨k0, n0⟩ := p
      by_cases h0 : k0 = k
      · simp [lookupNote, h0] at h
      · simp [lookupNote, h0] at h
        simp [insertNote, h0, ih h]

theorem lookupNote_append_of_none (a b : NotesMap) (k : String)
    (h : lookupNote a k = none) :
    lookupNote (a ++ b) k = lookupNote b k := by
  induction a with
  | nil => simp
  | cons p rest ih =>
      obtain ⟨k0, n0⟩ := p
      by_cases h0 : k0 = k
      · simp [lookupNote, h0] at h
      · simp [lookupNote, h0] at h
        simp [lookupNote, h0, ih h]

/-! ## Claim theorems: the reducer arms -/

/-- C3: after `CreateNote` with a freshly generated identifier, the
store contains the new note under that identifier, that identifier is
the selected one, the new note has title "New Note", empty content and
the default color `Yellow` (with its `id` field equal to the key), and
no existing note is modified or removed; the error slot is untouched. -/
theorem createNote_spec (s : NotesApp) (freshId : String)
    (hfresh : lookupNote s.notes freshId = none) :
    lookupNote ((s.update (Message.CreateNote freshId)).notes) freshId = some (newNote freshId) ∧
    (s.update (Message.CreateNote freshId)).current_note = some freshId ∧
    (newNote freshId).title = "New Note" ∧
    (newNote freshId).content = "" ∧
    (newNote freshId).color = NoteColor.Yellow ∧
    (newNote freshId).id = freshId ∧
    (∀ k, k ≠ freshId →
      lookupNote ((s.update (Message.CreateNote freshId)).notes) k = lookupNote s.notes k) ∧
    (s.update (Message.CreateNote freshId)).error = s.error := by
  refine ⟨?_, rfl, rfl, rfl, rfl, rfl, ?_, rfl⟩
  · exact lookupNote_insertNote_self s.notes freshId (newNote freshId)
  · intro k hk
    exact lookupNote_insertNote_ne s.notes freshId k (newNote freshId) hk

/-- Witness for C3 at a concrete store. -/
theorem createNote_spec_witness :
    lookupNote ((NotesApp.new.update (Message.CreateNote "a")).notes) "a" = some (newNote "a") ∧
    (NotesApp.new.update (Message.CreateNote "a")).current_note = some "a" :=
  ⟨(createNote_spec NotesApp.new "a" rfl).1, (createNote_spec NotesApp.new "a" rfl).2.1⟩

/-- C5: when nothing is selected, or the selected identifier has no
matching key, each of the three field-update messages leaves the whole
state (notes, selection, error) unchanged. -/
theorem update_without_selection_noop (s : NotesApp)
    (h : ∀ id, s.current_note = some id → lookupNote s.notes id = none) :
    (∀ t, s.update (Message.UpdateNoteTitle t) = s) ∧
    (∀ c, s.update (Message.UpdateNoteContent c) = s) ∧
    (∀ col, s.update (Message.ChangeNoteColor col) = s) := by
  obtain ⟨notes, cur, err⟩ := s
  refine ⟨?_, ?_, ?_⟩
  · intro t
    cases cur with
    | none => rfl
    | some id => simp [NotesApp.update, modifyNote_of_none _ _ _ (h id rfl)]
  · intro c
    cases cur with
    | none => rfl
    | some id => simp [NotesApp.update, modifyNote_of_none _ _ _ (h id rfl)]
  · intro col
    cases cur with
    | none => rfl
    | some id => simp [NotesApp.update, modifyNote_of_none _ _ _ (h id rfl)]

/-- Witness for C5: a populated store with no selection is left intact
by a title update. -/
theorem update_without_selection_noop_witness :
    NotesApp.update ⟨[("a", newNote "a")], none, none⟩ (Message.UpdateNoteTitle "x") =
      ⟨[("a", newNote "a")], none, none⟩ :=
  (update_without_selection_noop ⟨[("a", newNote "a")], none, none⟩
      (fun _ h => nomatch h)).1 "x"

/-- C6: when the selected identifier matches a key, each field-update
message with any argument (including the empty string) sets exactly
that field of the selected note and changes nothing else: other
fields, other notes, the key set, the selection, and the error slot
are unchanged. -/
theorem update_field_spec (s : NotesApp) (id : String) (note : Note)
    (hsel : s.current_note = some id) (hget : lookupNote s.notes id = some note) :
    (∀ t,
      lookupNote ((s.update (Message.UpdateNoteTitle t)).notes) id =
          some { note with title := t } ∧
      (∀ k, k ≠ id →
        lookupNote ((s.update (Message.UpdateNoteTitle t)).notes) k = lookupNote s.notes k) ∧
      notesKeys ((s.update (Message.UpdateNoteTitle t)).notes) = notesKeys s.notes ∧
      (s.update (Message.UpdateNoteTitle t)).current_note = s.current_note ∧
      (s.update (Message.UpdateNoteTitle t)).error = s.error) ∧
    (∀ c,
      lookupNote ((s.update (Message.UpdateNoteContent c)).notes) id =
          some { note with content := c } ∧
      (∀ k, k ≠ id →
        lookupNote ((s.update (Message.UpdateNoteContent c)).notes) k = lookupNote s.notes k) ∧
      notesKeys ((s.update (Message.UpdateNoteContent c)).notes) = notesKeys s.notes ∧
      (s.update (Message.UpdateNoteContent c)).current_note = s.current_note ∧
      (s.update (Message.UpdateNoteContent c)).error = s.error) ∧
    (∀ col,
      lookupNote ((s.update (Message.ChangeNoteColor col)).notes) id =
          some { note with color := col } ∧
      (∀ k, k ≠ id →
        lookupNote ((s.update (Message.ChangeNoteColor col)).notes) k = lookupNote s.notes k) ∧
      notesKeys ((s.update (Message.ChangeNoteColor col)).notes) = notesKeys s.notes ∧
      (s.update (Message.ChangeNoteColor col)).current_note = s.current_note ∧
      (s.update (Message.ChangeNoteColor col)).error = s.error) := by
  refine ⟨?_, ?_, ?_⟩
  · intro t
    refine ⟨?_, ?_, ?_, ?_, ?_⟩
    · simp [NotesApp.update, hsel, lookupNote_modifyNote, hget]
    · intro k hk
      simp [NotesApp.update, hsel, lookupNote_modifyNote, hk]
    · simp [NotesApp.update, hsel, notesKeys_modifyNote]
    · simp [NotesApp.update, hsel]
    · simp [NotesApp.update, hsel]
  · intro c
    refine ⟨?_, ?_, ?_, ?_, ?_⟩
    · simp [NotesApp.update, hsel, lookupNote_modifyNote, hget]
    · intro k hk
      simp [NotesApp.update, hsel, lookupNote_modifyNote, hk]
    · simp [NotesApp.update, hsel, notesKeys_modifyNote]
    · simp [NotesApp.update, hsel]
    · simp [NotesApp.update, hsel]
  · intro col
    refine ⟨?_, ?_, ?_, ?_, ?_⟩
    · simp [NotesApp.update, hsel, lookupNote_modifyNote, hget]
    · intro k hk
      simp [NotesApp.update, hsel, lookupNote_modifyNote, hk]
    · simp [NotesApp.update, hsel, notesKeys_modifyNote]
    · simp [NotesApp.update, hsel]
    · simp [NotesApp.update, hsel]

/-- Witness for C6: updating the title of the selected note at a
concrete store. -/
theorem update_field_spec_witness :
    lookupNote ((NotesApp.update ⟨[("a", newNote "a")], some "a", none⟩
        (Message.UpdateNoteTitle "Groceries")).notes) "a" =
      some { newNote "a" with title := "Groceries" } :=
  ((update_field_spec ⟨[("a", newNote "a")], some "a", none⟩ "a" (newNote "a") rfl
      (by decide)).1 "Groceries").1

/-- C8: the `ExportNotes` arm, whether the write succeeds or fails,
leaves the notes mapping and the selected identifier exactly as they
were. -/
theorem exportNotes_frame (s : NotesApp) (wr : Except String Unit) :
    (s.update (Message.ExportNotes wr)).notes = s.notes ∧
    (s.update (Message.ExportNotes wr)).current_note = s.current_note := by
  cases wr with
  | ok u => exact ⟨rfl, rfl⟩
  | error e => exact ⟨rfl, rfl⟩

/-- C7: the full lifecycle of the single optional error message: a
failing import or export overwrites it with the failure's description,
a successful import or export clears it, `ClearError` clears it, and
no other message touches it. -/
theorem error_lifecycle :
    (∀ (s : NotesApp) fid, (s.update (Message.CreateNote fid)).error = s.error) ∧
    (∀ (s : NotesApp) id, (s.update (Message.SelectNote id)).error = s.error) ∧
    (∀ (s : NotesApp) t, (s.update (Message.UpdateNoteTitle t)).error = s.error) ∧
    (∀ (s : NotesApp) c, (s.update (Message.UpdateNoteContent c)).error = s.error) ∧
    (∀ (s : NotesApp) col, (s.update (Message.ChangeNoteColor col)).error = s.error) ∧
    (∀ (s : NotesApp) file,
        (s.update (Message.ImportNotes file)).error =
          match s.import_notes file with
          | Except.ok _ => none
          | Except.error e => some e) ∧
    (∀ (s : NotesApp) wr,
        (s.update (Message.ExportNotes wr)).error =
          match s.export_notes wr with
          | Except.ok _ => none
          | Except.error e => some e) ∧
    (∀ (s : NotesApp), (s.update Message.ClearError).error = none) := by
  refine ⟨fun s fid => rfl, fun s id => rfl, ?_, ?_, ?_, ?_, ?_, fun s => rfl⟩
  · intro s t
    cases hc : s.current_note <;> simp [NotesApp.update, hc]
  · intro s c
    cases hc : s.current_note <;> simp [NotesApp.update, hc]
  · intro s col
    cases hc : s.current_note <;> simp [NotesApp.update, hc]
  · intro s file
    cases h : s.import_notes file <;> simp [NotesApp.update, h]
  · intro s wr
    cases h : s.export_notes wr <;> simp [NotesApp.update, h]

/-! ## Deserialization failures carry non-empty messages -/

theorem exceptMap_error {α β : Type} (x : Except String α) (f : α → β) (e : String)
    (h : x.map f = Except.error e) : x = Except.error e := by
  cases x with
  | ok a => simp [Except.map] at h
  | error e' => simpa [Except.map] using h

theorem asString_error_ne (j : Json) (e : String)
    (h : asString j = Except.error e) : e ≠ "" := by
  cases j <;> simp [asString] at h <;> subst h <;> decide

theorem asColor_error_ne (j : Json) (e : String)
    (h : asColor j = Except.error e) : e ≠ "" := by
  cases j <;> try (simp [asColor] at h; subst h; decide)
  case str s =>
    cases hc : colorOfTag s with
    | some c => simp [asColor, hc] at h
    | none =>
        simp [asColor, hc] at h
        subst h
        decide

theorem noteFieldStep_error_ne (acc : NoteAcc) (p : String × Json) (e : String)
    (h : noteFieldStep acc p = Except.error e) : e ≠ "" := by
  unfold noteFieldStep at h
  split at h
  all_goals try split at h
  all_goals
    first
    | (exact asString_error_ne _ _ (exceptMap_error _ _ _ h))
    | (exact asColor_error_ne _ _ (exceptMap_error _ _ _ h))
    | ((simp at h) <;> (subst h; decide))

theorem noteFields_error_ne (fields : List (String × Json)) (acc : NoteAcc) (e : String)
    (h : noteFields acc fields = Except.error e) : e ≠ "" := by
  induction fields generalizing acc with
  | nil => simp [noteFields] at h
  | cons p rest ih =>
      unfold noteFields at h
      cases hs : noteFieldStep acc p with
      | ok acc' =>
          rw [hs] at h
          exact ih acc' h
      | error e' =>
          rw [hs] at h
          simp at h
          subst h
          exact noteFieldStep_error_ne _ _ _ hs

theorem jsonToNote_error_ne (j : Json) (e : String)
    (h : jsonToNote j = Except.error e) : e ≠ "" := by
  cases j <;> try (simp [jsonToNote] at h; subst h; decide)
  case obj fields =>
    simp only [jsonToNote] at h
    split at h
    · split at h
      · simp at h
      · simp at h
        subst h
        decide
    · rename_i e' heq
      simp at h
      subst h
      exact noteFields_error_ne _ _ _ heq

theorem insertParsed_error_ne (entries : List (String × Json)) (m : NotesMap) (e : String)
    (h : insertParsed m entries = Except.error e) : e ≠ "" := by
  induction entries generalizing m with
  | nil => simp [insertParsed] at h
  | cons p rest ih =>
      unfold insertParsed at h
      cases hs : jsonToNote p.2 with
      | ok n =>
          rw [hs] at h
          exact ih _ h
      | error e' =>
          rw [hs] at h
          simp at h
          subst h
          exact jsonToNote_error_ne _ _ hs

theorem jsonToNotes_error_ne (j : Json) (e : String)
    (h : jsonToNotes j = Except.error e) : e ≠ "" := by
  cases j <;> try (simp [jsonToNotes] at h; subst h; decide)
  case obj entries =>
    unfold jsonToNotes at h
    exact insertParsed_error_ne _ _ _ h

/-! ## Characterization of `import_notes` -/

theorem import_notes_readError (s : NotesApp) (e : String) :
    s.import_notes (Except.error e) = Except.error e := rfl

theorem import_notes_parse_ok (s : NotesApp) (j : Json) (m : NotesMap)
    (hm : jsonToNotes j = Except.ok m) :
    s.import_notes (Except.ok j) = Except.ok { s with notes := m } := by
  show Except.bind (jsonToNotes j)
      (fun mm => (Except.ok { s with notes := mm } : Except String NotesApp)) =
    Except.ok { s with notes := m }
  rw [hm]
  exact rfl

theorem import_notes_parse_error (s : NotesApp) (j : Json) (e : String)
    (he : jsonToNotes j = Except.error e) :
    s.import_notes (Except.ok j) = Except.error e := by
  show Except.bind (jsonToNotes j)
      (fun mm => (Except.ok { s with notes := mm } : Except String NotesApp)) =
    Except.error e
  rw [he]
  exact rfl

/-- C1: on any import failure (read failure or parse failure) the
notes mapping is left exactly as before and the error slot holds a
non-empty message; on success the mapping is replaced wholesale by the
deserialized one; in both cases the selected identifier is untouched.
(The hypothesis models that the file-read error descriptions produced
by the standard library are non-empty, as the spec's "human-readable
description" requires; parse-failure messages are proved non-empty.) -/
theorem importNotes_spec (s : NotesApp) (file : Except String Json)
    (hread : ∀ e, file = Except.error e → e ≠ "") :
    (∀ e, s.import_notes file = Except.error e →
        (s.update (Message.ImportNotes file)).notes = s.notes ∧
        (s.update (Message.ImportNotes file)).error = some e ∧ e ≠ "") ∧
    (∀ j m, file = Except.ok j → jsonToNotes j = Except.ok m →
        (s.update (Message.ImportNotes file)).notes = m ∧
        (s.update (Message.ImportNotes file)).error = none) ∧
    (s.update (Message.ImportNotes file)).current_note = s.current_note := by
  refine ⟨?_, ?_, ?_⟩
  · intro e h
    refine ⟨?_, ?_, ?_⟩
    · simp [NotesApp.update, h]
    · simp [NotesApp.update, h]
    · cases file with
      | error e' =>
          have h' : (Except.error e' : Except String NotesApp) = Except.error e := h
          injection h' with h2
          exact h2 ▸ hread e' rfl
      | ok j =>
          cases hj : jsonToNotes j with
          | ok m => rw [import_notes_parse_ok s j m hj] at h; simp at h
          | error e' =>
              rw [import_notes_parse_error s j e' hj] at h
              simp at h
              exact h ▸ jsonToNotes_error_ne j e' hj
  · intro j m hfile hm
    subst hfile
    constructor
    · simp [NotesApp.update, import_notes_parse_ok s j m hm]
    · simp [NotesApp.update, import_notes_parse_ok s j m hm]
  · cases file with
    | error e => simp [NotesApp.update, import_notes_readError]
    | ok j =>
        cases hj : jsonToNotes j with
        | ok m => simp [NotesApp.update, import_notes_parse_ok s j m hj]
        | error e' => simp [NotesApp.update, import_notes_parse_error s j e' hj]

/-- Witness for C1: a failing read leaves a populated store intact,
overwrites a previous error with the new non-empty message. -/
theorem importNotes_spec_witness :
    ((⟨[("a", newNote "a")], some "a", some "old"⟩ : NotesApp).update
        (Message.ImportNotes (Except.error "boom"))).notes = [("a", newNote "a")] ∧
    ((⟨[("a", newNote "a")], some "a", some "old"⟩ : NotesApp).update
        (Message.ImportNotes (Except.error "boom"))).error = some "boom" ∧
    "boom" ≠ "" :=
  (importNotes_spec ⟨[("a", newNote "a")], some "a", some "old"⟩ (Except.error "boom")
      (fun e h => by injection h with h2; exact h2 ▸ (by decide))).1 "boom" rfl

/-! ## Round trip: deserialization inverts serialization -/

theorem notesKeys_cons (p : String × Note) (m : NotesMap) :
    notesKeys (p :: m) = p.1 :: notesKeys m := rfl

theorem jsonToNote_noteToJson (n : Note) :
    jsonToNote (noteToJson n) = Except.ok n := by
  cases n with
  | mk i t c col => cases col <;> rfl

theorem insertParsed_roundtrip (m : NotesMap) :
    ∀ acc : NotesMap, (notesKeys m).Nodup →
      (∀ k ∈ notesKeys m, lookupNote acc k = none) →
      insertParsed acc (m.map fun p => (p.1, noteToJson p.2)) = Except.ok (acc ++ m) := by
  induction m with
  | nil =>
      intro acc _ _
      simp [insertParsed]
  | cons p rest ih =>
      intro acc hnd hdisj
      obtain ⟨k, n⟩ := p
      have hk : lookupNote acc k = none := hdisj k (by rw [notesKeys_cons]; exact List.mem_cons_self _ _)
      have hnd' := (List.nodup_cons.mp (by rw [notesKeys_cons] at hnd; exact hnd))
      have hstep : insertParsed acc (((k, n) :: rest).map fun p => (p.1, noteToJson p.2)) =
          insertParsed (insertNote acc k n) (rest.map fun p => (p.1, noteToJson p.2)) := by
        simp [insertParsed, jsonToNote_noteToJson]
      rw [hstep, insertNote_of_none _ _ _ hk,
        ih (acc ++ [(k, n)]) hnd'.2 ?_]
      · rw [List.append_assoc]
        rfl
      · intro k' hk'
        have hkk : ¬ k = k' := fun hh => hnd'.1 (hh ▸ hk')
        rw [lookupNote_append_of_none _ _ _
          (hdisj k' (by rw [notesKeys_cons]; exact List.mem_cons_of_mem _ hk'))]
        simp [lookupNote, hkk]

theorem jsonToNotes_notesToJson (m : NotesMap) (hnd : (notesKeys m).Nodup) :
    jsonToNotes (notesToJson m) = Except.ok m := by
  have h := insertParsed_roundtrip m [] hnd (fun k _ => rfl)
  simpa [jsonToNotes, notesToJson] using h

/-- C2: exporting and then importing the written document restores the
in-memory mapping deep-equal to the original (same keys, each note
with identical fields), for any mapping, empty or populated, with
arbitrary Unicode text fields.  The hypothesis `hnd` states that the
store is a mapping (its keys are unique, as `HashMap` guarantees);
`hdoc` names the document that export wrote. -/
theorem export_import_roundtrip (s : NotesApp) (doc : Json)
    (hnd : (notesKeys s.notes).Nodup)
    (hdoc : s.export_notes (Except.ok ()) = Except.ok doc) :
    ((s.update (Message.ExportNotes (Except.ok ()))).update
        (Message.ImportNotes (Except.ok doc))).notes = s.notes ∧
    (∀ k, lookupNote ((s.update (Message.ExportNotes (Except.ok ()))).update
        (Message.ImportNotes (Except.ok doc))).notes k = lookupNote s.notes k) ∧
    notesKeys ((s.update (Message.ExportNotes (Except.ok ()))).update
        (Message.ImportNotes (Except.ok doc))).notes = notesKeys s.notes := by
  have h0 : (Except.ok (notesToJson s.notes) : Except String Json) = Except.ok doc := hdoc
  injection h0 with h1
  subst h1
  have hm : jsonToNotes (notesToJson s.notes) = Except.ok s.notes :=
    jsonToNotes_notesToJson s.notes hnd
  have hs1 : s.update (Message.ExportNotes (Except.ok ())) = { s with error := none } := rfl
  rw [hs1]
  have hfin : ({ s with error := none } : NotesApp).update
      (Message.ImportNotes (Except.ok (notesToJson s.notes))) =
      { s with error := none } := by
    have hio := import_notes_parse_ok { s with error := none } (notesToJson s.notes) s.notes hm
    simp [NotesApp.update, hio]
  rw [hfin]
  exact ⟨rfl, fun k => rfl, rfl⟩

/-- Witness for C2: round trip on a concrete two-note store with
Unicode titles restores it exactly. -/
theorem export_import_roundtrip_witness :
    (((⟨[("a", ⟨"a", "Grüße 😀", "Milk, eggs", NoteColor.Green⟩),
          ("b", ⟨"b", "日本語", "", NoteColor.Red⟩)], some "a", none⟩ : NotesApp).update
        (Message.ExportNotes (Except.ok ()))).update
      (Message.ImportNotes (Except.ok (notesToJson
        [("a", ⟨"a", "Grüße 😀", "Milk, eggs", NoteColor.Green⟩),
         ("b", ⟨"b", "日本語", "", NoteColor.Red⟩)])))).notes =
    [("a", ⟨"a", "Grüße 😀", "Milk, eggs", NoteColor.Green⟩),
     ("b", ⟨"b", "日本語", "", NoteColor.Red⟩)] :=
  (export_import_roundtrip
    ⟨[("a", ⟨"a", "Grüße 😀", "Milk, eggs", NoteColor.Green⟩),
      ("b", ⟨"b", "日本語", "", NoteColor.Red⟩)], some "a", none⟩
    (notesToJson
      [("a", ⟨"a", "Grüße 😀", "Milk, eggs", NoteColor.Green⟩),
       ("b", ⟨"b", "日本語", "", NoteColor.Red⟩)])
    (by decide) rfl).1

/-! ## Shape of the exported document -/

/-- The entry list of the exported document: each key paired with its
serialized note. -/
def noteEntries (m : NotesMap) : List (String × Json) :=
  m.map fun p => (p.1, noteToJson p.2)

/-- Checks that a JSON value has exactly the shape of a serialized
`Note`: an object with the four fields in order, string-valued, the
color being one of the five fixed tags. -/
def isNoteJson (j : Json) : Bool :=
  match j with
  | Json.obj [(f1, Json.str _), (f2, Json.str _), (f3, Json.str _), (f4, Json.str tag)] =>
      f1 == "id" && f2 == "title" && f3 == "content" && f4 == "color" &&
        (colorOfTag tag).isSome
  | _ => false

theorem isNoteJson_noteToJson (n : Note) : isNoteJson (noteToJson n) = true := by
  cases n with
  | mk i t c col => cases col <;> rfl

/-- C9: for every mapping, the exported document is a top-level object
whose keys are exactly the note identifiers and whose every value is a
Note object with fields identifier, title and content (strings) and
color (one of the five fixed color names as a string tag). -/
theorem notesToJson_shape (m : NotesMap) :
    ∃ entries, notesToJson m = Json.obj entries ∧
      List.map Prod.fst entries = notesKeys m ∧
      ∀ p ∈ entries, isNoteJson p.2 = true := by
  refine ⟨noteEntries m, rfl, ?_, ?_⟩
  · simp [noteEntries, notesKeys, List.map_map]
  · intro p hp
    simp only [noteEntries, List.mem_map] at hp
    obtain ⟨q, _, rfl⟩ := hp
    exact isNoteJson_noteToJson q.2

/-! ## Sequences of creates -/

theorem lookupNote_run_creates (ids : List String) :
    ∀ (s : NotesApp) (k : String),
      lookupNote (s.run (ids.map Message.CreateNote)).notes k =
        if k ∈ ids then some (newNote k) else lookupNote s.notes k := by
  induction ids with
  | nil =>
      intro s k
      simp [NotesApp.run]
  | cons id0 rest ih =>
      intro s k
      have hstep : s.run ((id0 :: rest).map Message.CreateNote) =
          (s.update (Message.CreateNote id0)).run (rest.map Message.CreateNote) := rfl
      rw [hstep, ih]
      by_cases hr : k ∈ rest
      · simp [hr, List.mem_cons]
      · by_cases h0 : k = id0
        · subst h0
          simp [hr, NotesApp.update, lookupNote_insertNote_self, newNote]
        · simp [hr, h0, NotesApp.update, lookupNote_insertNote_ne s.notes id0 k _ h0]

/-- C4: for a sequence of creates whose freshly generated identifiers
are pairwise distinct and absent from the initial store (the
contract the 128-bit random uuid scheme provides), at the moment of
each insertion the generated identifier has no matching key in the
store, every created note is present at the end (nothing was
overwritten by a later create), and every key not in the sequence
still maps to exactly what it did initially. -/
theorem createSeq_spec (s : NotesApp) (ids : List String)
    (hnd : ids.Nodup) (hfresh : ∀ id ∈ ids, lookupNote s.notes id = none) :
    (∀ i : Fin ids.length,
        lookupNote (s.run ((ids.take i).map Message.CreateNote)).notes (ids.get i) = none) ∧
    (∀ id ∈ ids, lookupNote (s.run (ids.map Message.CreateNote)).notes id = some (newNote id)) ∧
    (∀ k, k ∉ ids → lookupNote (s.run (ids.map Message.CreateNote)).notes k =
        lookupNote s.notes k) := by
  refine ⟨?_, ?_, ?_⟩
  · intro i
    rw [lookupNote_run_creates]
    have hmemdrop : ids.get i ∈ ids.drop i := by
      rw [List.drop_eq_getElem_cons i.isLt]
      exact List.mem_cons_self _ _
    have hdisj := List.disjoint_take_drop hnd (Nat.le_refl i)
    have hnottake : ids.get i ∉ ids.take i := fun hmem => hdisj hmem hmemdrop
    rw [if_neg hnottake]
    exact hfresh _ (List.get_mem ids i.1 i.2)
  · intro id hid
    rw [lookupNote_run_creates]
    exact if_pos hid
  · intro k hk
    rw [lookupNote_run_creates]
    exact if_neg hk

/-- Witness for C4: two creates with distinct fresh identifiers on the
empty store both end up present. -/
theorem createSeq_spec_witness :
    lookupNote (NotesApp.new.run (["a", "b"].map Message.CreateNote)).notes "a" =
      some (newNote "a") :=
  (createSeq_spec NotesApp.new ["a", "b"] (by decide) (by decide)).2.1 "a" (by decide)

/-! ## The id-equals-key invariant -/

/-- Every note in the store is stored under its own `id` field. -/
def WellFormed (m : NotesMap) : Prop :=
  ∀ k n, lookupNote m k = some n → n.id = k

/-- Whether a message is the import action. -/
def isImportMessage : Message → Bool
  | Message.ImportNotes _ => true
  | _ => false

/-- Whether a message list contains no import action. -/
def noImportMsgs (msgs : List Message) : Bool :=
  msgs.all fun msg => !isImportMessage msg

theorem wellFormed_insert_newNote (m : NotesMap) (freshId : String)
    (hwf : WellFormed m) : WellFormed (insertNote m freshId (newNote freshId)) := by
  intro k n hk
  by_cases h : k = freshId
  · subst h
    rw [lookupNote_insertNote_self] at hk
    injection hk with h2
    rw [← h2]
    rfl
  · rw [lookupNote_insertNote_ne _ _ _ _ h] at hk
    exact hwf k n hk

theorem wellFormed_modifyNote (m : NotesMap) (key : String) (f : Note → Note)
    (hf : ∀ n, (f n).id = n.id) (hwf : WellFormed m) :
    WellFormed (modifyNote m key f) := by
  intro k n hk
  rw [lookupNote_modifyNote] at hk
  by_cases h : k = key
  · rw [if_pos h] at hk
    cases ho : lookupNote m k with
    | none => rw [ho] at hk; simp at hk
    | some n0 =>
        rw [ho] at hk
        simp at hk
        rw [← hk, hf n0]
        exact hwf k n0 ho
  · rw [if_neg h] at hk
    exact hwf k n hk

theorem wellFormed_update (s : NotesApp) (msg : Message)
    (hni : isImportMessage msg = false) (hwf : WellFormed s.notes) :
    WellFormed ((s.update msg).notes) := by
  cases msg with
  | CreateNote freshId => exact wellFormed_insert_newNote s.notes freshId hwf
  | SelectNote id => exact hwf
  | UpdateNoteTitle t =>
      cases hc : s.current_note with
      | none => simpa [NotesApp.update, hc] using hwf
      | some id =>
          simpa [NotesApp.update, hc] using
            wellFormed_modifyNote s.notes id (fun n => { n with title := t })
              (fun n => rfl) hwf
  | UpdateNoteContent c =>
      cases hc : s.current_note with
      | none => simpa [NotesApp.update, hc] using hwf
      | some id =>
          simpa [NotesApp.update, hc] using
            wellFormed_modifyNote s.notes id (fun n => { n with content := c })
              (fun n => rfl) hwf
  | ChangeNoteColor col =>
      cases hc : s.current_note with
      | none => simpa [NotesApp.update, hc] using hwf
      | some id =>
          simpa [NotesApp.update, hc] using
            wellFormed_modifyNote s.notes id (fun n => { n with color := col })
              (fun n => rfl) hwf
  | ImportNotes file => simp [isImportMessage] at hni
  | ExportNotes wr =>
      cases wr with
      | ok u => exact hwf
      | error e => exact hwf
  | ClearError => exact hwf

theorem wellFormed_run (msgs : List Message) :
    ∀ s : NotesApp, noImportMsgs msgs = true → WellFormed s.notes →
      WellFormed ((s.run msgs).notes) := by
  induction msgs with
  | nil =>
      intro s _ hwf
      exact hwf
  | cons msg rest ih =>
      intro s hall hwf
      unfold noImportMsgs at hall
      rw [List.all_cons, Bool.and_eq_true] at hall
      obtain ⟨h1, h2⟩ := hall
      have h1' : isImportMessage msg = false := by
        cases hmi : isImportMessage msg
        · rfl
        · rw [hmi] at h1
          exact absurd h1 (by decide)
      have hstep : s.run (msg :: rest) = (s.update msg).run rest := rfl
      rw [hstep]
      exact ih (s.update msg) h2 (wellFormed_update s msg h1' hwf)

/-- C10: create establishes the id-equals-key invariant for the
inserted entry; every non-import message preserves the invariant; it
therefore holds in every state reachable without import from the
initial empty state; and import performs no validation of it (a
successful import can produce a store violating it). -/
theorem id_key_invariant :
    (∀ (s : NotesApp) (freshId : String),
        lookupNote ((s.update (Message.CreateNote freshId)).notes) freshId =
          some (newNote freshId) ∧ (newNote freshId).id = freshId) ∧
    (∀ (s : NotesApp) (msg : Message), isImportMessage msg = false →
        WellFormed s.notes → WellFormed ((s.update msg).notes)) ∧
    (∀ msgs, noImportMsgs msgs = true → WellFormed ((NotesApp.new.run msgs).notes)) ∧
    (∃ (s : NotesApp) (file : Except String Json) (s' : NotesApp),
        s.import_notes file = Except.ok s' ∧
        ¬ WellFormed ((s.update (Message.ImportNotes file)).notes)) := by
  refine ⟨?_, fun s msg h hwf => wellFormed_update s msg h hwf,
    fun msgs h => wellFormed_run msgs NotesApp.new h (fun k n hk => nomatch hk), ?_⟩
  · intro s freshId
    exact ⟨lookupNote_insertNote_self s.notes freshId (newNote freshId), rfl⟩
  · refine ⟨NotesApp.new,
      Except.ok (Json.obj [("k", noteToJson ⟨"other", "t", "c", NoteColor.Red⟩)]),
      { NotesApp.new with notes := [("k", ⟨"other", "t", "c", NoteColor.Red⟩)] }, rfl, ?_⟩
    intro hwf
    exact absurd (hwf "k" ⟨"other", "t", "c", NoteColor.Red⟩ rfl) (by decide)

/-- Witness for C10: a concrete import-free message sequence from the
initial state yields a well-formed store. -/
theorem id_key_invariant_witness :
    WellFormed ((NotesApp.new.run [Message.CreateNote "a",
      Message.UpdateNoteTitle "Groceries",
      Message.ExportNotes (Except.ok ())]).notes) :=
  id_key_invariant.2.2.1 _ rfl
